import Mathlib

/-!
Shallow embedding of `lib/trx.js` of mocha-trx-reporter.

The reporter subscribes to mocha runner events, accumulates tests in a set,
and on the terminal `end` event produces one TRX result per surviving test,
relocates attachment files, and writes the serialized report to a file or to
standard output.

Modelling conventions:
* A mocha `Test` is a record of its fields read by the reporter; `state` is
  `Option String` (JS `undefined` is `none`; `!test.state` is `state = none`).
* Object identity for the JS `Set` of tests is modelled with an `id : Nat`
  field; the accumulation set is a duplicate-free list of ids in insertion
  order.
* A `Suite`'s `tests` list stands for the tests visited by `suite.eachTest`
  (the tests nested anywhere in the scope).
* Filesystem and console side effects are modelled as an emitted list of
  `FsOp` actions; whether `fs.mkdirSync` / `fs.copyFileSync` throw is decided
  by an environment oracle `FsEnv`, and a thrown error only adds the logging
  action the `catch` block performs.
* `crypto.randomBytes(16)` is a 16-element byte list parameter; `uuid.v4()`
  is a per-test-index string parameter; `new Date().toISOString()` is a
  string parameter.
* Paths are POSIX: `path.sep` is `"/"`, `path.join` drops empty segments and
  joins with `"/"` (normalization of `.`/`..` is not needed by any claim).
-/

namespace MochaTrx

/-- A mocha error object as read by the reporter: `err.message`, `err.stack`. -/
structure TestError where
  message : String
  stack : String
deriving Repr, DecidableEq

/-- A mocha test as read by the reporter. -/
structure Test where
  id : Nat
  title : String
  fullTitle : String
  pending : Bool
  state : Option String
  err : Option TestError
  attachments : List String
deriving Repr, DecidableEq

/-- A mocha suite: its `fullTitle()` and the tests visited by `eachTest`. -/
structure Suite where
  id : Nat
  fullTitle : String
  tests : List Test
deriving Repr, DecidableEq

/-- A failed mocha hook (`failed.type === 'hook'`): its title, its `parent`
suite reference, and its error. -/
structure Hook where
  title : String
  parent : Suite
  err : TestError
deriving Repr, DecidableEq

/-! ### Character-list string utilities

`String.prototype.replace(string, string)` replaces only the first
occurrence; `indexOf(sub) !== -1` is substring containment. -/

/-- `leadsWith pat s` is true when `pat` is an initial segment of `s`. -/
def leadsWith : List Char → List Char → Bool
  | [], _ => true
  | _ :: _, [] => false
  | p :: ps, c :: cs => p == c && leadsWith ps cs

/-- Replace the first occurrence of `pat` in `s` by `repl` (JS
`s.replace(pat, repl)` with string arguments). -/
def repFirst : List Char → List Char → List Char → List Char
  | [], _, _ => []
  | c :: rest, pat, repl =>
    if leadsWith pat (c :: rest) then repl ++ (c :: rest).drop pat.length
    else c :: repFirst rest pat repl

/-- `hasSub s pat` is true when `pat` occurs as a contiguous substring of `s`
(JS `s.indexOf(pat) !== -1`). -/
def hasSub : List Char → List Char → Bool
  | [], pat => leadsWith pat []
  | c :: rest, pat => leadsWith pat (c :: rest) || hasSub rest pat

/-- String-level first-occurrence replacement. -/
def replaceFirst (s pat repl : String) : String :=
  ⟨repFirst s.data pat.data repl.data⟩

/-- String-level substring containment. -/
def strContainsSub (s pat : String) : Bool :=
  hasSub s.data pat.data

/-- JS falsiness of a string value: only the empty string is falsy. -/
def strFalsy (s : String) : Bool :=
  s.data.isEmpty

/-- JS `a || b` for two possibly-undefined string values. -/
def jsOrStr (a b : Option String) : Option String :=
  match a with
  | some s => if strFalsy s then b else some s
  | none => b

/-- JS `a || d` where the fallback `d` is a definite string. -/
def jsOrD (a : Option String) (d : String) : String :=
  match a with
  | some s => if strFalsy s then d else s
  | none => d

/-! ### Hex strings (`crypto.randomBytes(16).toString('hex')`) -/

/-- One lowercase hexadecimal digit for `n < 16`. -/
def hexDigit (n : Nat) : Char :=
  if n < 10 then Char.ofNat (48 + n) else Char.ofNat (87 + n)

/-- The two hex digits of one byte. -/
def byteHex (b : Nat) : List Char :=
  [hexDigit (b / 16), hexDigit (b % 16)]

/-- Lowercase hexadecimal rendering of a byte list; for a 16-byte input this
is the 32-character string `crypto.randomBytes(16).toString('hex')`. -/
def randomHex (bytes : List Nat) : String :=
  ⟨bytes.foldr (fun b acc => byteHex b ++ acc) []⟩

/-- Whether `c` is a lowercase hexadecimal digit. -/
def isLowerHexDigit (c : Char) : Bool :=
  ('0' ≤ c && c ≤ '9') || ('a' ≤ c && c ≤ 'f')

/-! ### POSIX path helpers -/

/-- `String.prototype.split` with a one-character separator, on character
lists; splitting the empty string yields one empty field. -/
def splitOnChar (sep : Char) : List Char → List (List Char)
  | [] => [[]]
  | c :: rest =>
    if c == sep then [] :: splitOnChar sep rest
    else
      match splitOnChar sep rest with
      | [] => [[c]]
      | x :: xs => (c :: x) :: xs

/-- `path.join`: drop empty segments and join the rest with `/`. -/
def joinPath (parts : List String) : String :=
  ⟨List.intercalate ['/'] ((parts.filter (fun p => !strFalsy p)).map String.data)⟩

/-- `a.split(path.sep).pop()`: the last `/`-separated component. -/
def baseName (p : String) : String :=
  ⟨((splitOnChar '/' p.data).reverse).headD []⟩

/-- `path.dirname` (POSIX): everything before the last separator, `"."` when
there is none. -/
def dirname (p : String) : String :=
  match splitOnChar '/' p.data with
  | [] => "."
  | [_] => "."
  | parts =>
    let d := List.intercalate ['/'] parts.dropLast
    if d.isEmpty then "/" else ⟨d⟩

/-! ### The `suite end` handler (trx.js lines 45-65)

On `suite end`, when the pending failed-hook marker's `parent` is the ended
suite (`failedHook.parent === suite`, modelled as structural equality of the
suite records), every test of the scope that is pending or has no state gets
a synthetic error, its state is forced to `'failed'` only when it had none,
and it is added to the accumulation set; the marker is then cleared. -/

/-- The synthetic error attached to tests hit by a hook failure:
`Not executed due to <hook title> on "<parent suite fullTitle>"`, stack copied
from the hook's error. -/
def syntheticErr (fh : Hook) : TestError :=
  { message := "Not executed due to " ++ fh.title ++ " on \"" ++ fh.parent.fullTitle ++ "\""
    stack := fh.err.stack }

/-- The in-place mutation `eachTest` performs on one test when the hook
failure applies to its scope. -/
def hookFailureUpdate (fh : Hook) (t : Test) : Test :=
  if t.pending = true ∨ t.state = none then
    { t with
      err := some (syntheticErr fh)
      state := if t.state = none then some "failed" else t.state }
  else t

/-- `tests.add(test)`: insertion into the identity-keyed set, modelled on the
list of test ids in insertion order. -/
def addTest (acc : List Nat) (t : Test) : List Nat :=
  if acc.contains t.id then acc else acc ++ [t.id]

/-- The `runner.on('suite end')` handler: given the ended suite, the current
failed-hook marker and the accumulation set, produce the updated suite (its
tests mutated in place), the updated marker and the updated set. -/
def handleSuiteEnd (suite : Suite) (failedHook : Option Hook) (acc : List Nat) :
    Suite × Option Hook × List Nat :=
  match failedHook with
  | some fh =>
    if fh.parent = suite then
      ({ suite with tests := suite.tests.map (hookFailureUpdate fh) },
       none,
       suite.tests.foldl
         (fun a t => if t.pending = true ∨ t.state = none then addTest a t else a) acc)
    else (suite, failedHook, acc)
  | none => (suite, failedHook, acc)

/-! ### Reporter options and output-path resolution (trx.js lines 169-175) -/

/-- A loosely-typed JS option value, enough to distinguish `=== true` from
other truthy values. -/
inductive JsVal where
  | undef
  | bool (b : Bool)
  | str (s : String)
deriving Repr, DecidableEq

/-- The reporter options read by trx.js. -/
structure ReporterOptions where
  output : Option String
  excludePending : JsVal
  warnExcludedPending : JsVal
deriving Repr, DecidableEq

/-- `getFilename(reporterOptions)`: the `output` option, falling back to the
`MOCHA_REPORTER_FILE` environment variable under JS `||`; a contained
`[hash]` token is replaced (first occurrence) with the hex rendering of the
16 random bytes. -/
def getFilename (output envFile : Option String) (bytes : List Nat) : Option String :=
  match jsOrStr output envFile with
  | none => none
  | some fp =>
    if strContainsSub fp "[hash]" then
      some (replaceFirst fp "[hash]" (randomHex bytes))
    else some fp

/-- JS truthiness of the resolved filename at its use sites
(`if (filename && ...)`, `if (filename)`): `none` when falsy. -/
def resolveFilename (output envFile : Option String) (bytes : List Nat) : Option String :=
  match getFilename output envFile bytes with
  | none => none
  | some s => if strFalsy s then none else some s

/-! ### Result entries and the run-end pass (trx.js lines 67-155) -/

/-- The TRX result produced for one test.

Modelled from the spec: `test-to-trx.js` is required by `trx.js` but is not
under `src/`; the spec treats it as a pure projection
`testToResult(test, host, workingDir, options) -> ResultEntry` that carries
the test's identity, outcome, duration and error text, with the TRX-specific
optional fields (execution id, relative results directory, result files)
starting unset.  We model the projection as the embedded source test plus
those unset fields; `resultFiles` holds the relative paths of attached
files. -/
structure ResultEntry where
  test : Test
  executionId : Option String
  relativeResultsDirectory : Option String
  resultFiles : List String
deriving Repr, DecidableEq

/-- Modelled from the spec: the projection of a test into its Result Entry
(see `ResultEntry`). -/
def testToTrx (t : Test) : ResultEntry :=
  { test := t, executionId := none, relativeResultsDirectory := none, resultFiles := [] }

/-- One observable side effect of the run-end pass. -/
inductive FsOp where
  | stdoutWrite (s : String)
  | mkdirRec (path : String)
  | copyFile (src target : String)
  | consoleWarn (s : String)
  | writeFile (path content : String)
deriving Repr, DecidableEq

/-- Environment oracle deciding which `fs.mkdirSync` / `fs.copyFileSync`
calls throw, and with which error text. -/
structure FsEnv where
  mkdirFails : String → Option String
  copyFails : String → String → Option String

/-- The environment in which no filesystem call throws. -/
def noFailEnv : FsEnv :=
  ⟨fun _ => none, fun _ _ => none⟩

/-- The `fs.mkdirSync(attachmentPath, { recursive: true })` attempt with its
progress log and its `catch` log (trx.js lines 115-120). -/
def mkdirAttemptOps (fsEnv : FsEnv) (attachmentPath : String) : List FsOp :=
  [FsOp.stdoutWrite ("Creating directory for attachments \"" ++ attachmentPath ++ "\"\r\n"),
   FsOp.mkdirRec attachmentPath] ++
  (match fsEnv.mkdirFails attachmentPath with
   | some e =>
     [FsOp.stdoutWrite
       ("Error creating directory for attachments \"" ++ attachmentPath ++ "\": " ++ e ++ "\r\n")]
   | none => [])

/-- The per-attachment copy (trx.js lines 123-133): the base name appended to
the result files, with the copy attempt's progress log and `catch` log. -/
def copyAttachment (fsEnv : FsEnv) (attachmentPath a : String) : String × List FsOp :=
  let attachmentName := baseName a
  let target := joinPath [attachmentPath, attachmentName]
  (attachmentName,
   [FsOp.stdoutWrite ("Copy attachment \"" ++ attachmentName ++ "\" to \"" ++ attachmentPath ++ "\"\r\n"),
    FsOp.copyFile a target] ++
   (match fsEnv.copyFails a target with
    | some e =>
      [FsOp.stdoutWrite
        ("Error copying attachment from \"" ++ a ++ "\" to \"" ++ target ++ "\": \"" ++ e ++ "\"\r\n")]
    | none => []))

/-- The attachment-relocation block (trx.js lines 108-135), entered when a
filename is resolved and the test has attachments: default the execution id
and the relative results directory, build the attachment directory
`path.join(cwd, filename.replace('.trx', ''), 'In', relativeResultsDirectory)`,
create it (logging a creation failure), copy each attachment to its base name
inside it (logging a copy failure), and append the base names to the entry's
result files. -/
def relocateAttachments (cwd filename freshUuid : String) (fsEnv : FsEnv)
    (t : Test) (r : ResultEntry) : ResultEntry × List FsOp :=
  let executionId := jsOrD r.executionId freshUuid
  let relDir := jsOrD r.relativeResultsDirectory executionId
  let attachmentPath := joinPath [cwd, replaceFirst filename ".trx" "", "In", relDir]
  let copies := t.attachments.map (copyAttachment fsEnv attachmentPath)
  ({ r with
      executionId := some executionId
      relativeResultsDirectory := some relDir
      resultFiles := r.resultFiles ++ copies.map Prod.fst },
   mkdirAttemptOps fsEnv attachmentPath ++ (copies.map Prod.snd).flatten)

/-- The body of the per-test `forEach` (trx.js lines 99-138): skip a pending
test when `excludePending === true` (returning no entry), otherwise project
the test and relocate its attachments when a filename is resolved and
attachments exist. -/
def processTest (cwd : String) (filename : Option String) (opts : ReporterOptions)
    (fsEnv : FsEnv) (freshUuid : String) (t : Test) : Option ResultEntry × List FsOp :=
  if t.pending = true ∧ opts.excludePending = JsVal.bool true then
    (none, [])
  else
    let result := testToTrx t
    match filename with
    | some f =>
      if t.attachments.isEmpty then (some result, [])
      else
        (some (relocateAttachments cwd f freshUuid fsEnv t result).1,
         (relocateAttachments cwd f freshUuid fsEnv t result).2)
    | none => (some result, [])

/-- The sequential `forEach` over the accumulated tests: entries kept in
order, the excluded-pending count, and the emitted side effects.  `i` indexes
the fresh-uuid stream. -/
def processTests (cwd : String) (filename : Option String) (opts : ReporterOptions)
    (fsEnv : FsEnv) (uuids : Nat → String) :
    Nat → List Test → List ResultEntry × Nat × List FsOp
  | _, [] => ([], 0, [])
  | i, t :: rest =>
    let res := processTest cwd filename opts fsEnv (uuids i) t
    let tail := processTests cwd filename opts fsEnv uuids (i + 1) rest
    match res.1 with
    | none => (tail.1, tail.2.1 + 1, res.2 ++ tail.2.2)
    | some r => (r :: tail.1, tail.2.1, res.2 ++ tail.2.2)

/-- The excluded-pending warning (trx.js lines 140-147), emitted only when
`warnExcludedPending === true` and at least one test was excluded. -/
def warningOps (opts : ReporterOptions) (excludedPendingCount : Nat) : List FsOp :=
  if opts.warnExcludedPending = JsVal.bool true ∧ 0 < excludedPendingCount then
    [FsOp.consoleWarn ("##[warning]" ++
      (if excludedPendingCount = 1 then
        "Excluded 1 test because it is marked as Pending."
      else
        "Excluded " ++ toString excludedPendingCount ++ " tests because they are marked as Pending."))]
  else []

/-- The final write (trx.js lines 149-154): with a resolved filename, create
its parent directory recursively and write the serialized report there;
otherwise print the serialized report to standard output. -/
def finalWriteOps (filename : Option String) (xml : String) : List FsOp :=
  match filename with
  | some f => [FsOp.mkdirRec (dirname f), FsOp.writeFile f xml]
  | none => [FsOp.stdoutWrite xml]

/-- The outcome of the run-end pass. -/
structure EndOutcome where
  results : List ResultEntry
  excludedPendingCount : Nat
  ops : List FsOp
deriving Repr

/-- The `runner.on('end')` handler (trx.js lines 67-155), with the TRX
serialization abstracted as `xmlOf` (node-trx's `run.toXml()` is an external
library). -/
def processEnd (cwd : String) (opts : ReporterOptions) (envFile : Option String)
    (hashBytes : List Nat) (uuids : Nat → String) (fsEnv : FsEnv)
    (xmlOf : List ResultEntry → String) (tests : List Test) : EndOutcome :=
  let filename := resolveFilename opts.output envFile hashBytes
  let res := processTests cwd filename opts fsEnv uuids 0 tests
  ⟨res.1, res.2.1, res.2.2 ++ warningOps opts res.2.1 ++ finalWriteOps filename (xmlOf res.1)⟩

/-! ### The run name (trx.js lines 75-76) -/

/-- `now.substring(0, now.indexOf('.'))`: the prefix before the first dot,
and the empty string when there is no dot (`substring(0, -1)`). -/
def substrBeforeDot (s : String) : String :=
  if s.data.any (fun c => c == '.') then ⟨s.data.takeWhile (fun c => c != '.')⟩ else ""

/-- The test-run name:
``` `${userName}@${computerName} ${now.substring(0, now.indexOf('.')).replace('T', ' ')}` ```. -/
def testRunName (userName computerName now : String) : String :=
  userName ++ "@" ++ computerName ++ " " ++ replaceFirst (substrBeforeDot now) "T" " "

/-! ### Side-effect classifiers used by the theorems -/

/-- Whether an action is the excluded-pending warning. -/
def isWarnOp : FsOp → Bool
  | FsOp.consoleWarn _ => true
  | _ => false

/-- Whether an action touches the filesystem (directory creation, file copy
or file write), as opposed to console output. -/
def isDiskOp : FsOp → Bool
  | FsOp.mkdirRec _ => true
  | FsOp.copyFile _ _ => true
  | FsOp.writeFile _ _ => true
  | _ => false

/-- Whether an action is a report-file write. -/
def isWriteFileOp : FsOp → Bool
  | FsOp.writeFile _ _ => true
  | _ => false

/-- Whether an action is one emitted by the attachment-relocation block
(progress or error logging, directory creation, file copy). -/
def isRelocOp : FsOp → Bool
  | FsOp.stdoutWrite _ => true
  | FsOp.mkdirRec _ => true
  | FsOp.copyFile _ _ => true
  | _ => false

/-! ## Helper lemmas about the string utilities -/

theorem leadsWith_self_append (pat rest : List Char) :
    leadsWith pat (pat ++ rest) = true := by
  induction pat with
  | nil => rfl
  | cons p ps ih => simp [leadsWith, ih]

theorem data_append (a b : String) : (a ++ b).data = a.data ++ b.data := by
  cases a; cases b; rfl

theorem repFirst_boundary (l rest repl : List Char) (p : Char) (ps : List Char)
    (h : ∀ c ∈ l, c ≠ p) :
    repFirst (l ++ (p :: ps) ++ rest) (p :: ps) repl = l ++ repl ++ rest := by
  induction l with
  | nil =>
    show repFirst ((p :: ps) ++ rest) (p :: ps) repl = repl ++ rest
    rw [List.cons_append, repFirst, ← List.cons_append, leadsWith_self_append]
    simp [List.drop_left]
  | cons c l ih =>
    have hcp : (p == c) = false := by
      have := h c (List.mem_cons_self c l)
      exact beq_eq_false_iff_ne.mpr (fun hpc => this hpc.symm)
    have ih2 := ih (fun c hc => h c (List.mem_cons_of_mem _ hc))
    simp [repFirst, leadsWith, hcp]
    rw [← List.append_assoc]
    rw [List.append_assoc] at ih2
    exact ih2

theorem repFirst_of_not_hasSub (s pat repl : List Char) (h : hasSub s pat = false) :
    repFirst s pat repl = s := by
  induction s with
  | nil => rfl
  | cons c rest ih =>
    rw [hasSub, Bool.or_eq_false_iff] at h
    rw [repFirst, if_neg (by simp [h.1]), ih h.2]

theorem hasSub_cons_append (l rest : List Char) (p : Char) (ps : List Char) :
    hasSub (l ++ (p :: ps) ++ rest) (p :: ps) = true := by
  induction l with
  | nil =>
    show hasSub ((p :: ps) ++ rest) (p :: ps) = true
    rw [List.cons_append, hasSub, ← List.cons_append, leadsWith_self_append]
    rfl
  | cons c l ih =>
    simp only [List.cons_append, hasSub, Bool.or_eq_true]
    exact Or.inr ih

theorem hasSub_append_right (l s pat : List Char) (h : hasSub s pat = true) :
    hasSub (l ++ s) pat = true := by
  induction l with
  | nil => exact h
  | cons c l ih => simp [hasSub, ih]

theorem takeWhile_append_dot (l1 l2 : List Char) (h : ∀ c ∈ l1, c ≠ '.') :
    (l1 ++ '.' :: l2).takeWhile (fun c => c != '.') = l1 := by
  induction l1 with
  | nil => simp [List.takeWhile]
  | cons c l ih =>
    have hc : (c != '.') = true := bne_iff_ne.mpr (h c (List.mem_cons_self c l))
    simp only [List.cons_append, List.takeWhile_cons, hc]
    rw [ih (fun c hc => h c (List.mem_cons_of_mem _ hc))]
    simp

theorem any_append_dot (l1 l2 : List Char) :
    (l1 ++ '.' :: l2).any (fun c => c == '.') = true := by
  simp

/-! ## Helper lemmas about hex strings -/

theorem hexDigit_lower (n : Nat) (h : n < 16) : isLowerHexDigit (hexDigit n) = true := by
  interval_cases n <;> decide

theorem hexDigit_ne_bracket (n : Nat) (h : n < 16) : hexDigit n ≠ '[' := by
  intro he
  have := hexDigit_lower n h
  rw [he] at this
  exact absurd this (by decide)

theorem randomHex_data (bytes : List Nat) :
    (randomHex bytes).data = bytes.foldr (fun b acc => byteHex b ++ acc) [] := rfl

theorem randomHex_length (bytes : List Nat) :
    (randomHex bytes).data.length = 2 * bytes.length := by
  rw [randomHex_data]
  induction bytes with
  | nil => rfl
  | cons b bs ih =>
    simp only [List.foldr_cons, List.length_append, ih, List.length_cons]
    simp [byteHex]
    omega

theorem randomHex_lower (bytes : List Nat) (h : ∀ b ∈ bytes, b < 256) :
    ∀ c ∈ (randomHex bytes).data, isLowerHexDigit c = true := by
  rw [randomHex_data]
  induction bytes with
  | nil => intro c hc; exact absurd hc (List.not_mem_nil c)
  | cons b bs ih =>
    intro c hc
    simp only [List.foldr_cons, List.mem_append] at hc
    rcases hc with hc | hc
    · have hb : b < 256 := h b (List.mem_cons_self b bs)
      have h1 : b / 16 < 16 := Nat.div_lt_of_lt_mul (by omega)
      have h2 : b % 16 < 16 := Nat.mod_lt b (by omega)
      simp only [byteHex, List.mem_cons, List.not_mem_nil] at hc
      rcases hc with rfl | hc
      · exact hexDigit_lower _ h1
      · rcases hc with rfl | hc
        · exact hexDigit_lower _ h2
        · exact absurd hc (by simp)
    · exact ih (fun b hb => h b (List.mem_cons_of_mem _ hb)) c hc

theorem randomHex_ne_bracket (bytes : List Nat) (h : ∀ b ∈ bytes, b < 256) :
    ∀ c ∈ (randomHex bytes).data, c ≠ '[' := by
  intro c hc he
  have := randomHex_lower bytes h c hc
  rw [he] at this
  exact absurd this (by decide)

/-! ## Helper lemmas about the run-end pass -/

theorem copyAttachment_fst (fsEnv : FsEnv) (p a : String) :
    (copyAttachment fsEnv p a).1 = baseName a := rfl

theorem copyAttachment_ops_reloc (fsEnv : FsEnv) (p a : String) :
    ∀ op ∈ (copyAttachment fsEnv p a).2, isRelocOp op = true := by
  intro op hop
  simp only [copyAttachment] at hop
  cases h : fsEnv.copyFails a (joinPath [p, baseName a]) with
  | none =>
    rw [h] at hop
    simp at hop
    rcases hop with rfl | rfl <;> rfl
  | some e =>
    rw [h] at hop
    simp at hop
    rcases hop with rfl | rfl | rfl <;> rfl

theorem mkdirAttemptOps_reloc (fsEnv : FsEnv) (p : String) :
    ∀ op ∈ mkdirAttemptOps fsEnv p, isRelocOp op = true := by
  intro op hop
  simp only [mkdirAttemptOps] at hop
  cases h : fsEnv.mkdirFails p with
  | none =>
    rw [h] at hop
    simp at hop
    rcases hop with rfl | rfl <;> rfl
  | some e =>
    rw [h] at hop
    simp at hop
    rcases hop with rfl | rfl | rfl <;> rfl

theorem relocate_fst (cwd f u : String) (fsEnv : FsEnv) (t : Test) (r : ResultEntry) :
    (relocateAttachments cwd f u fsEnv t r).1 =
      { r with
          executionId := some (jsOrD r.executionId u)
          relativeResultsDirectory :=
            some (jsOrD r.relativeResultsDirectory (jsOrD r.executionId u))
          resultFiles := r.resultFiles ++ t.attachments.map baseName } := by
  simp [relocateAttachments, List.map_map, Function.comp_def, copyAttachment_fst]

theorem relocate_ops_reloc (cwd f u : String) (fsEnv : FsEnv) (t : Test) (r : ResultEntry) :
    ∀ op ∈ (relocateAttachments cwd f u fsEnv t r).2, isRelocOp op = true := by
  intro op hop
  simp only [relocateAttachments, List.mem_append] at hop
  rcases hop with hop | hop
  · exact mkdirAttemptOps_reloc _ _ op hop
  · rw [List.mem_flatten] at hop
    rcases hop with ⟨l, hl, hop⟩
    rw [List.mem_map] at hl
    rcases hl with ⟨pair, hpair, rfl⟩
    rw [List.mem_map] at hpair
    rcases hpair with ⟨a, _, rfl⟩
    exact copyAttachment_ops_reloc _ _ _ op hop

theorem processTest_skip (cwd : String) (fn : Option String) (opts : ReporterOptions)
    (fsEnv : FsEnv) (u : String) (t : Test)
    (h : t.pending = true ∧ opts.excludePending = JsVal.bool true) :
    processTest cwd fn opts fsEnv u t = (none, []) := by
  unfold processTest
  rw [if_pos h]

theorem processTest_isSome (cwd : String) (fn : Option String) (opts : ReporterOptions)
    (fsEnv : FsEnv) (u : String) (t : Test)
    (h : ¬(t.pending = true ∧ opts.excludePending = JsVal.bool true)) :
    ∃ r, (processTest cwd fn opts fsEnv u t).1 = some r := by
  unfold processTest
  rw [if_neg h]
  cases fn with
  | none => exact ⟨_, rfl⟩
  | some f =>
    dsimp only
    split
    · exact ⟨_, rfl⟩
    · exact ⟨_, rfl⟩

theorem processTest_fst_test (cwd : String) (fn : Option String) (opts : ReporterOptions)
    (fsEnv : FsEnv) (u : String) (t : Test) (r : ResultEntry)
    (hr : (processTest cwd fn opts fsEnv u t).1 = some r) : r.test = t := by
  unfold processTest at hr
  split at hr
  · simp at hr
  · cases fn with
    | none =>
      simp only [Option.some.injEq] at hr
      rw [← hr]
      rfl
    | some f =>
      dsimp only at hr
      split at hr
      · simp only [Option.some.injEq] at hr
        rw [← hr]
        rfl
      · simp only [Option.some.injEq] at hr
        rw [← hr, relocate_fst]
        rfl

theorem processTest_fst_env (cwd : String) (fn : Option String) (opts : ReporterOptions)
    (fsEnv : FsEnv) (u : String) (t : Test) :
    (processTest cwd fn opts fsEnv u t).1 = (processTest cwd fn opts noFailEnv u t).1 := by
  unfold processTest
  split
  · rfl
  · cases fn with
    | none => rfl
    | some f =>
      dsimp only
      split
      · rfl
      · rw [relocate_fst, relocate_fst]

theorem processTest_ops_reloc (cwd : String) (fn : Option String) (opts : ReporterOptions)
    (fsEnv : FsEnv) (u : String) (t : Test) :
    ∀ op ∈ (processTest cwd fn opts fsEnv u t).2, isRelocOp op = true := by
  intro op hop
  unfold processTest at hop
  split at hop
  · simp at hop
  · cases fn with
    | none => simp at hop
    | some f =>
      dsimp only at hop
      split at hop
      · simp at hop
      · exact relocate_ops_reloc _ _ _ _ _ _ op hop

theorem processTest_ops_none (cwd : String) (opts : ReporterOptions)
    (fsEnv : FsEnv) (u : String) (t : Test) :
    (processTest cwd none opts fsEnv u t).2 = [] := by
  unfold processTest
  split <;> rfl

theorem processTests_count_excl (cwd : String) (fn : Option String) (opts : ReporterOptions)
    (fsEnv : FsEnv) (uuids : Nat → String)
    (hexcl : opts.excludePending = JsVal.bool true) :
    ∀ (i : Nat) (l : List Test),
      (processTests cwd fn opts fsEnv uuids i l).2.1 =
        (l.filter (fun t => t.pending)).length := by
  intro i l
  induction l generalizing i with
  | nil => rfl
  | cons t rest ih =>
    by_cases hp : t.pending = true
    · have hs := processTest_skip cwd fn opts fsEnv (uuids i) t ⟨hp, hexcl⟩
      simp only [processTests, hs, List.filter_cons, hp]
      simp [ih (i + 1)]
    · obtain ⟨r, hr⟩ := processTest_isSome cwd fn opts fsEnv (uuids i) t
        (fun hc => hp hc.1)
      have hp' : t.pending = false := by simpa using hp
      simp only [processTests, hr, List.filter_cons, hp']
      simp [ih (i + 1)]

theorem processTests_results_pending (cwd : String) (fn : Option String)
    (opts : ReporterOptions) (fsEnv : FsEnv) (uuids : Nat → String)
    (hexcl : opts.excludePending = JsVal.bool true) :
    ∀ (i : Nat) (l : List Test) (r : ResultEntry),
      r ∈ (processTests cwd fn opts fsEnv uuids i l).1 → r.test.pending = false := by
  intro i l
  induction l generalizing i with
  | nil => intro r hr; exact absurd hr (List.not_mem_nil r)
  | cons t rest ih =>
    intro r hr
    by_cases hp : t.pending = true
    · have hs := processTest_skip cwd fn opts fsEnv (uuids i) t ⟨hp, hexcl⟩
      simp only [processTests, hs] at hr
      exact ih (i + 1) r hr
    · obtain ⟨r0, hr0⟩ := processTest_isSome cwd fn opts fsEnv (uuids i) t
        (fun hc => hp hc.1)
      simp only [processTests, hr0, List.mem_cons] at hr
      rcases hr with rfl | hr
      · rw [processTest_fst_test cwd fn opts fsEnv (uuids i) t r hr0]
        cases hb : t.pending
        · rfl
        · exact absurd hb hp
      · exact ih (i + 1) r hr

theorem processTests_no_skip (cwd : String) (fn : Option String) (opts : ReporterOptions)
    (fsEnv : FsEnv) (uuids : Nat → String)
    (hexcl : opts.excludePending ≠ JsVal.bool true) :
    ∀ (i : Nat) (l : List Test),
      (processTests cwd fn opts fsEnv uuids i l).1.map (fun r => r.test) = l ∧
      (processTests cwd fn opts fsEnv uuids i l).2.1 = 0 := by
  intro i l
  induction l generalizing i with
  | nil => exact ⟨rfl, rfl⟩
  | cons t rest ih =>
    obtain ⟨r, hr⟩ := processTest_isSome cwd fn opts fsEnv (uuids i) t
      (fun hc => hexcl hc.2)
    have ht := processTest_fst_test cwd fn opts fsEnv (uuids i) t r hr
    simp only [processTests, hr, List.map_cons]
    exact ⟨by rw [ht, (ih (i + 1)).1], (ih (i + 1)).2⟩

theorem processTests_env (cwd : String) (fn : Option String) (opts : ReporterOptions)
    (fsEnv : FsEnv) (uuids : Nat → String) :
    ∀ (i : Nat) (l : List Test),
      (processTests cwd fn opts fsEnv uuids i l).1 =
        (processTests cwd fn opts noFailEnv uuids i l).1 ∧
      (processTests cwd fn opts fsEnv uuids i l).2.1 =
        (processTests cwd fn opts noFailEnv uuids i l).2.1 := by
  intro i l
  induction l generalizing i with
  | nil => exact ⟨rfl, rfl⟩
  | cons t rest ih =>
    have hfe := processTest_fst_env cwd fn opts fsEnv (uuids i) t
    cases h : (processTest cwd fn opts fsEnv (uuids i) t).1 with
    | none =>
      have h' : (processTest cwd fn opts noFailEnv (uuids i) t).1 = none := by
        rw [← hfe, h]
      simp only [processTests, h, h']
      exact ⟨(ih (i + 1)).1, by simp [(ih (i + 1)).2]⟩
    | some r =>
      have h' : (processTest cwd fn opts noFailEnv (uuids i) t).1 = some r := by
        rw [← hfe, h]
      simp only [processTests, h, h']
      exact ⟨by rw [(ih (i + 1)).1], (ih (i + 1)).2⟩

theorem processTests_ops_reloc (cwd : String) (fn : Option String) (opts : ReporterOptions)
    (fsEnv : FsEnv) (uuids : Nat → String) :
    ∀ (i : Nat) (l : List Test) (op : FsOp),
      op ∈ (processTests cwd fn opts fsEnv uuids i l).2.2 → isRelocOp op = true := by
  intro i l
  induction l generalizing i with
  | nil => intro op hop; exact absurd hop (List.not_mem_nil op)
  | cons t rest ih =>
    intro op hop
    cases h : (processTest cwd fn opts fsEnv (uuids i) t).1 with
    | none =>
      simp only [processTests, h, List.mem_append] at hop
      rcases hop with hop | hop
      · exact processTest_ops_reloc cwd fn opts fsEnv (uuids i) t op hop
      · exact ih (i + 1) op hop
    | some r =>
      simp only [processTests, h, List.mem_append] at hop
      rcases hop with hop | hop
      · exact processTest_ops_reloc cwd fn opts fsEnv (uuids i) t op hop
      · exact ih (i + 1) op hop

theorem processTests_ops_none (cwd : String) (opts : ReporterOptions)
    (fsEnv : FsEnv) (uuids : Nat → String) :
    ∀ (i : Nat) (l : List Test),
      (processTests cwd none opts fsEnv uuids i l).2.2 = [] := by
  intro i l
  induction l generalizing i with
  | nil => rfl
  | cons t rest ih =>
    cases h : (processTest cwd none opts fsEnv (uuids i) t).1 with
    | none =>
      simp only [processTests, h]
      rw [processTest_ops_none, ih (i + 1)]
      rfl
    | some r =>
      simp only [processTests, h]
      rw [processTest_ops_none, ih (i + 1)]
      rfl

theorem warningOps_all_warn (opts : ReporterOptions) (n : Nat) :
    ∀ op ∈ warningOps opts n, isWarnOp op = true := by
  intro op hop
  unfold warningOps at hop
  split at hop
  · simp only [List.mem_singleton] at hop
    rw [hop]
    rfl
  · exact absurd hop (List.not_mem_nil op)

theorem reloc_not_warn (op : FsOp) (h : isRelocOp op = true) : isWarnOp op = false := by
  cases op <;> first | rfl | exact absurd h (by simp [isRelocOp])

theorem reloc_not_writeFile (op : FsOp) (h : isRelocOp op = true) :
    isWriteFileOp op = false := by
  cases op <;> first | rfl | exact absurd h (by simp [isRelocOp])

theorem warn_not_disk (op : FsOp) (h : isWarnOp op = true) : isDiskOp op = false := by
  cases op <;> first | rfl | exact absurd h (by simp [isWarnOp])

theorem warn_not_writeFile (op : FsOp) (h : isWarnOp op = true) :
    isWriteFileOp op = false := by
  cases op <;> first | rfl | exact absurd h (by simp [isWarnOp])

theorem filter_eq_nil_of_not (p : FsOp → Bool) (l : List FsOp)
    (h : ∀ op ∈ l, p op = false) : l.filter p = [] := by
  induction l with
  | nil => rfl
  | cons a l ih =>
    rw [List.filter_cons, if_neg (by simp [h a (List.mem_cons_self a l)])]
    exact ih (fun op hop => h op (List.mem_cons_of_mem a hop))

theorem isEmpty_append_cons (l1 : List Char) (c : Char) (l2 : List Char) :
    (l1 ++ c :: l2).isEmpty = false := by
  cases l1 <;> rfl

theorem repFirst_single (l rest : List Char) (p q : Char) (h : ∀ c ∈ l, c ≠ p) :
    repFirst (l ++ p :: rest) [p] [q] = l ++ q :: rest := by
  have h1 : l ++ p :: rest = l ++ [p] ++ rest := by
    rw [List.append_assoc]
    rfl
  have h2 : l ++ q :: rest = l ++ [q] ++ rest := by
    rw [List.append_assoc]
    rfl
  rw [h1, h2]
  exact repFirst_boundary l rest [q] p [] h

/-! ## Claim theorems -/

/-- Claim C3: the `output` option takes priority over the
`MOCHA_REPORTER_FILE` fallback (the environment value is irrelevant when the
option is a nonempty string); with the option unset, the environment value is
used as the resolved path; in either source a contained `[hash]` token is
replaced, first occurrence, with the hex rendering of the 16 random bytes —
a 32-character string of lowercase hexadecimal digits; when neither source is
set no path resolves and the final write goes to standard output. -/
theorem output_resolution_spec (s : String) (envFile : Option String) (bytes : List Nat)
    (hs : strFalsy s = false) (hlen : bytes.length = 16) (hb : ∀ b ∈ bytes, b < 256) :
    (getFilename (some s) envFile bytes = getFilename (some s) none bytes) ∧
    (getFilename (some s) envFile bytes =
      some (replaceFirst s "[hash]" (randomHex bytes))) ∧
    (getFilename none (some s) bytes =
      some (replaceFirst s "[hash]" (randomHex bytes))) ∧
    (randomHex bytes).data.length = 32 ∧
    (∀ c ∈ (randomHex bytes).data, isLowerHexDigit c = true) ∧
    getFilename none none bytes = none ∧
    (∀ xml, finalWriteOps none xml = [FsOp.stdoutWrite xml]) := by
  have hmain : ∀ env : Option String, getFilename (some s) env bytes =
      some (replaceFirst s "[hash]" (randomHex bytes)) := by
    intro env
    by_cases h : strContainsSub s "[hash]" = true
    · simp [getFilename, jsOrStr, hs, h]
    · have h' : hasSub s.data ("[hash]" : String).data = false := by
        simpa [strContainsSub] using h
      have hrep : replaceFirst s "[hash]" (randomHex bytes) = s := by
        unfold replaceFirst
        rw [repFirst_of_not_hasSub _ _ _ h']
      simp [getFilename, jsOrStr, hs, strContainsSub, h', hrep]
  have henv : getFilename none (some s) bytes = getFilename (some s) none bytes := by
    simp [getFilename, jsOrStr, hs]
  refine ⟨by rw [hmain, hmain], hmain envFile, by rw [henv, hmain], ?_,
    randomHex_lower bytes hb, rfl, fun xml => rfl⟩
  rw [randomHex_length, hlen]

/-- Claim C3 witness: with the option `results/[hash].trx`, a set (ignored)
environment variable, and the 16 bytes `00 01 ... 0f`, resolution yields the
templated option path with the 32-character hex string substituted; with the
option unset, the environment path `env/[hash].trx` is resolved with the
token substituted the same way. -/
theorem output_resolution_spec_witness :
    getFilename (some "results/[hash].trx") (some "ignored.trx")
        [0, 1, 2, 3, 4, 5, 6, 7, 8, 9, 10, 11, 12, 13, 14, 15] =
      some "results/000102030405060708090a0b0c0d0e0f.trx" ∧
    getFilename none (some "env/[hash].trx")
        [0, 1, 2, 3, 4, 5, 6, 7, 8, 9, 10, 11, 12, 13, 14, 15] =
      some "env/000102030405060708090a0b0c0d0e0f.trx" := by
  have h1 := (output_resolution_spec "results/[hash].trx" (some "ignored.trx")
    [0, 1, 2, 3, 4, 5, 6, 7, 8, 9, 10, 11, 12, 13, 14, 15]
    (by decide) (by decide) (by decide)).2.1
  have h2 := (output_resolution_spec "env/[hash].trx" none
    [0, 1, 2, 3, 4, 5, 6, 7, 8, 9, 10, 11, 12, 13, 14, 15]
    (by decide) (by decide) (by decide)).2.2.1
  constructor
  · rw [h1]
    decide
  · rw [h2]
    decide

/-- Claim C9: only the first occurrence of the `[hash]` token in the
resolved output path is substituted: the resolved path is exactly the prefix,
then the generated hex string, then the untouched remainder — so any later
`[hash]` occurrence (necessarily in the remainder, since the prefix has no
`[`) survives literally. -/
theorem hash_first_occurrence_spec (s1 s2 : String) (envFile : Option String)
    (bytes : List Nat) (h1 : ∀ c ∈ s1.data, c ≠ '[') :
    getFilename (some (s1 ++ "[hash]" ++ s2)) envFile bytes =
      some (s1 ++ randomHex bytes ++ s2) ∧
    (strContainsSub s2 "[hash]" = true →
      strContainsSub (s1 ++ randomHex bytes ++ s2) "[hash]" = true) := by
  have hpat : ("[hash]" : String).data = '[' :: ['h', 'a', 's', 'h', ']'] := rfl
  have hdata : (s1 ++ "[hash]" ++ s2).data =
      s1.data ++ ('[' :: ['h', 'a', 's', 'h', ']']) ++ s2.data := by
    rw [data_append, data_append, hpat]
  have hfalsy : strFalsy (s1 ++ "[hash]" ++ s2) = false := by
    unfold strFalsy
    rw [hdata, List.append_assoc]
    exact isEmpty_append_cons _ _ _
  have hcont : strContainsSub (s1 ++ "[hash]" ++ s2) "[hash]" = true := by
    unfold strContainsSub
    rw [hdata, hpat]
    exact hasSub_cons_append _ _ _ _
  have hout : (s1 ++ randomHex bytes ++ s2).data =
      (s1.data ++ (randomHex bytes).data) ++ s2.data := by
    rw [data_append, data_append]
  constructor
  · have hrep : replaceFirst (s1 ++ "[hash]" ++ s2) "[hash]" (randomHex bytes) =
        s1 ++ randomHex bytes ++ s2 := by
      unfold replaceFirst
      rw [hdata, hpat]
      apply String.ext
      show repFirst (s1.data ++ ('[' :: ['h', 'a', 's', 'h', ']']) ++ s2.data)
          ('[' :: ['h', 'a', 's', 'h', ']']) (randomHex bytes).data =
        (s1 ++ randomHex bytes ++ s2).data
      rw [repFirst_boundary s1.data s2.data (randomHex bytes).data '[' ['h', 'a', 's', 'h', ']'] h1,
        hout]
    simp [getFilename, jsOrStr, hfalsy, hcont, hrep]
  · intro hs2
    unfold strContainsSub at hs2 ⊢
    rw [hout]
    exact hasSub_append_right _ _ _ hs2

/-- Claim C9 witness: with `a[hash]b[hash].trx` as the output option and the
two bytes `ff 00`, only the first `[hash]` is substituted and the second
survives literally. -/
theorem hash_first_occurrence_spec_witness :
    getFilename (some ("a" ++ "[hash]" ++ "b[hash].trx")) none [255, 0] =
      some ("a" ++ randomHex [255, 0] ++ "b[hash].trx") ∧
    strContainsSub ("a" ++ randomHex [255, 0] ++ "b[hash].trx") "[hash]" = true := by
  have h := hash_first_occurrence_spec "a" "b[hash].trx" none [255, 0] (by decide)
  exact ⟨h.1, h.2 (by decide)⟩

/-- Claim C8: the run name is
`<user>@<host> <date> <time>` where the ISO timestamp `<date>T<time>.<frac>`
is truncated at the first dot (dropping the fractional seconds and the
timezone suffix) and its `T` separator is replaced with a space. -/
theorem testRunName_format_spec (u h d t r : String)
    (hd1 : ∀ c ∈ d.data, c ≠ '.') (hdT : ∀ c ∈ d.data, c ≠ 'T')
    (ht1 : ∀ c ∈ t.data, c ≠ '.') :
    testRunName u h (d ++ "T" ++ t ++ "." ++ r) =
      u ++ "@" ++ h ++ " " ++ d ++ " " ++ t := by
  have hT : ("T" : String).data = ['T'] := rfl
  have hDot : ("." : String).data = ['.'] := rfl
  have hmem : ∀ c ∈ d.data ++ 'T' :: t.data, c ≠ '.' := by
    intro c hc
    rcases List.mem_append.mp hc with hc | hc
    · exact hd1 c hc
    · rcases List.mem_cons.mp hc with rfl | hc
      · decide
      · exact ht1 c hc
  have hform : (d ++ "T" ++ t ++ "." ++ r).data =
      (d.data ++ 'T' :: t.data) ++ '.' :: r.data := by
    simp [data_append, hT, hDot, List.append_assoc]
  have hsub : substrBeforeDot (d ++ "T" ++ t ++ "." ++ r) = ⟨d.data ++ 'T' :: t.data⟩ := by
    unfold substrBeforeDot
    rw [hform, if_pos (any_append_dot _ _), takeWhile_append_dot _ _ hmem]
  have hrep : replaceFirst (substrBeforeDot (d ++ "T" ++ t ++ "." ++ r)) "T" " " =
      ⟨d.data ++ ' ' :: t.data⟩ := by
    rw [hsub]
    exact congrArg String.mk (repFirst_single d.data t.data 'T' ' ' hdT)
  unfold testRunName
  rw [hrep]
  apply String.ext
  simp [data_append, List.append_assoc]

/-- Claim C8 witness: for user `alice`, host `host1` and the ISO timestamp
`2024-01-02T03:04:05.678Z`, the run name is
`alice@host1 2024-01-02 03:04:05`. -/
theorem testRunName_format_spec_witness :
    testRunName "alice" "host1" ("2024-01-02" ++ "T" ++ "03:04:05" ++ "." ++ "678Z") =
      "alice" ++ "@" ++ "host1" ++ " " ++ "2024-01-02" ++ " " ++ "03:04:05" :=
  testRunName_format_spec "alice" "host1" "2024-01-02" "03:04:05" "678Z"
    (by decide) (by decide) (by decide)

theorem warningOps_zero (opts : ReporterOptions) : warningOps opts 0 = [] := by
  simp [warningOps]

theorem finalWriteOps_filter_warn (fn : Option String) (xml : String) :
    (finalWriteOps fn xml).filter isWarnOp = [] := by
  cases fn <;> rfl

/-- Claim C4: with `excludePending === true`, no produced result entry comes
from a pending test, and the excluded-pending count equals the number of
pending tests in the accumulated set. -/
theorem excludePending_filter_spec (cwd : String) (opts : ReporterOptions)
    (envFile : Option String) (bytes : List Nat) (uuids : Nat → String)
    (fsEnv : FsEnv) (xmlOf : List ResultEntry → String) (tests : List Test)
    (hexcl : opts.excludePending = JsVal.bool true) :
    (∀ r ∈ (processEnd cwd opts envFile bytes uuids fsEnv xmlOf tests).results,
      r.test.pending = false) ∧
    (processEnd cwd opts envFile bytes uuids fsEnv xmlOf tests).excludedPendingCount =
      (tests.filter (fun t => t.pending)).length := by
  constructor
  · intro r hr
    exact processTests_results_pending cwd (resolveFilename opts.output envFile bytes)
      opts fsEnv uuids hexcl 0 tests r hr
  · exact processTests_count_excl cwd (resolveFilename opts.output envFile bytes)
      opts fsEnv uuids hexcl 0 tests

/-- Claim C4 witness: a run with one pending and one passed test, under
`excludePending := true`, excludes exactly the one pending test. -/
theorem excludePending_filter_spec_witness :
    (processEnd "" ⟨none, JsVal.bool true, JsVal.undef⟩ none [] (fun _ => "u")
      noFailEnv (fun _ => "")
      [⟨1, "p", "S p", true, none, none, []⟩,
       ⟨2, "q", "S q", false, some "passed", none, []⟩]).excludedPendingCount = 1 := by
  have h := (excludePending_filter_spec "" ⟨none, JsVal.bool true, JsVal.undef⟩ none []
    (fun _ => "u") noFailEnv (fun _ => "")
    [⟨1, "p", "S p", true, none, none, []⟩,
     ⟨2, "q", "S q", false, some "passed", none, []⟩] rfl).2
  rw [h]
  decide

theorem warningOps_not_strict (opts : ReporterOptions) (n : Nat)
    (hw : opts.warnExcludedPending ≠ JsVal.bool true) : warningOps opts n = [] := by
  unfold warningOps
  rw [if_neg (fun hc => hw hc.1)]

/-- Claim C10: each option triggers its behavior only on the boolean `true`
value. Whenever `excludePending` is any other value (for example the string
`"true"`), every accumulated test — pending or not — yields a result entry,
the excluded count is zero, and no warning is emitted.  Independently,
whenever `warnExcludedPending` is any value other than the boolean `true`,
no warning is emitted — even when the excluded count is positive because
pending tests were excluded under `excludePending === true`. -/
theorem strict_boolean_option_spec (cwd : String) (opts : ReporterOptions)
    (envFile : Option String) (bytes : List Nat) (uuids : Nat → String)
    (fsEnv : FsEnv) (xmlOf : List ResultEntry → String) (tests : List Test) :
    (opts.excludePending ≠ JsVal.bool true →
      (processEnd cwd opts envFile bytes uuids fsEnv xmlOf tests).results.map
          (fun r => r.test) = tests ∧
      (processEnd cwd opts envFile bytes uuids fsEnv xmlOf tests).excludedPendingCount = 0 ∧
      (processEnd cwd opts envFile bytes uuids fsEnv xmlOf tests).ops.filter isWarnOp = []) ∧
    (opts.warnExcludedPending ≠ JsVal.bool true →
      (processEnd cwd opts envFile bytes uuids fsEnv xmlOf tests).ops.filter isWarnOp = []) := by
  have hops : (processEnd cwd opts envFile bytes uuids fsEnv xmlOf tests).ops =
      (processTests cwd (resolveFilename opts.output envFile bytes) opts fsEnv uuids 0 tests).2.2 ++
      warningOps opts
        (processTests cwd (resolveFilename opts.output envFile bytes) opts fsEnv uuids 0 tests).2.1 ++
      finalWriteOps (resolveFilename opts.output envFile bytes)
        (xmlOf (processTests cwd (resolveFilename opts.output envFile bytes)
          opts fsEnv uuids 0 tests).1) := rfl
  have hA : ((processTests cwd (resolveFilename opts.output envFile bytes)
      opts fsEnv uuids 0 tests).2.2).filter isWarnOp = [] :=
    filter_eq_nil_of_not isWarnOp _
      (fun op hop => reloc_not_warn op
        (processTests_ops_reloc cwd _ opts fsEnv uuids 0 tests op hop))
  constructor
  · intro hexcl
    have hns := processTests_no_skip cwd (resolveFilename opts.output envFile bytes)
      opts fsEnv uuids hexcl 0 tests
    refine ⟨hns.1, hns.2, ?_⟩
    rw [hops, hns.2, List.filter_append, List.filter_append, hA, warningOps_zero,
      finalWriteOps_filter_warn]
    rfl
  · intro hw
    rw [hops, List.filter_append, List.filter_append, hA,
      warningOps_not_strict opts _ hw, finalWriteOps_filter_warn]
    rfl

/-- Claim C10 witness: with `excludePending := "true"` (a string, not the
boolean), a pending test is kept in the output, nothing is counted as
excluded, and no warning is emitted; and with `excludePending := true` so
that an exclusion really occurs (count 1) but `warnExcludedPending := "true"`
(a string), still no warning is emitted. -/
theorem strict_boolean_option_spec_witness :
    (processEnd "" ⟨none, JsVal.str "true", JsVal.str "true"⟩ none [] (fun _ => "u")
        noFailEnv (fun _ => "")
        [⟨1, "p", "S p", true, none, none, []⟩]).results.map (fun r => r.test) =
      [⟨1, "p", "S p", true, none, none, []⟩] ∧
    (processEnd "" ⟨none, JsVal.bool true, JsVal.str "true"⟩ none [] (fun _ => "u")
        noFailEnv (fun _ => "")
        [⟨1, "p", "S p", true, none, none, []⟩]).excludedPendingCount = 1 ∧
    (processEnd "" ⟨none, JsVal.bool true, JsVal.str "true"⟩ none [] (fun _ => "u")
        noFailEnv (fun _ => "")
        [⟨1, "p", "S p", true, none, none, []⟩]).ops.filter isWarnOp = [] :=
  ⟨((strict_boolean_option_spec "" ⟨none, JsVal.str "true", JsVal.str "true"⟩ none []
      (fun _ => "u") noFailEnv (fun _ => "")
      [⟨1, "p", "S p", true, none, none, []⟩]).1 (by decide)).1,
   by decide,
   (strict_boolean_option_spec "" ⟨none, JsVal.bool true, JsVal.str "true"⟩ none []
      (fun _ => "u") noFailEnv (fun _ => "")
      [⟨1, "p", "S p", true, none, none, []⟩]).2 (by decide)⟩

/-- Claim C7: with `warnExcludedPending === true`, a zero excluded count
emits no warning, an excluded count of one emits exactly one warning with the
singular phrasing, and a larger count emits exactly one warning with the
plural phrasing carrying the count. -/
theorem pending_warning_spec (cwd : String) (opts : ReporterOptions)
    (envFile : Option String) (bytes : List Nat) (uuids : Nat → String)
    (fsEnv : FsEnv) (xmlOf : List ResultEntry → String) (tests : List Test)
    (hw : opts.warnExcludedPending = JsVal.bool true) :
    ((processEnd cwd opts envFile bytes uuids fsEnv xmlOf tests).excludedPendingCount = 0 →
      (processEnd cwd opts envFile bytes uuids fsEnv xmlOf tests).ops.filter isWarnOp = []) ∧
    ((processEnd cwd opts envFile bytes uuids fsEnv xmlOf tests).excludedPendingCount = 1 →
      (processEnd cwd opts envFile bytes uuids fsEnv xmlOf tests).ops.filter isWarnOp =
        [FsOp.consoleWarn "##[warning]Excluded 1 test because it is marked as Pending."]) ∧
    (1 < (processEnd cwd opts envFile bytes uuids fsEnv xmlOf tests).excludedPendingCount →
      (processEnd cwd opts envFile bytes uuids fsEnv xmlOf tests).ops.filter isWarnOp =
        [FsOp.consoleWarn ("##[warning]Excluded " ++
          toString (processEnd cwd opts envFile bytes uuids fsEnv xmlOf tests).excludedPendingCount
          ++ " tests because they are marked as Pending.")]) := by
  have hops : (processEnd cwd opts envFile bytes uuids fsEnv xmlOf tests).ops =
      (processTests cwd (resolveFilename opts.output envFile bytes) opts fsEnv uuids 0 tests).2.2 ++
      warningOps opts
        (processEnd cwd opts envFile bytes uuids fsEnv xmlOf tests).excludedPendingCount ++
      finalWriteOps (resolveFilename opts.output envFile bytes)
        (xmlOf (processTests cwd (resolveFilename opts.output envFile bytes)
          opts fsEnv uuids 0 tests).1) := rfl
  have hA : ((processTests cwd (resolveFilename opts.output envFile bytes)
      opts fsEnv uuids 0 tests).2.2).filter isWarnOp = [] :=
    filter_eq_nil_of_not isWarnOp _
      (fun op hop => reloc_not_warn op
        (processTests_ops_reloc cwd _ opts fsEnv uuids 0 tests op hop))
  refine ⟨?_, ?_, ?_⟩ <;> intro hn
  · rw [hops, hn, List.filter_append, List.filter_append, hA, warningOps_zero,
      finalWriteOps_filter_warn]
    rfl
  · rw [hops, hn, List.filter_append, List.filter_append, hA,
      finalWriteOps_filter_warn]
    have hW : warningOps opts 1 =
        [FsOp.consoleWarn "##[warning]Excluded 1 test because it is marked as Pending."] := by
      simp [warningOps, hw]
    rw [hW]
    rfl
  · rw [hops, List.filter_append, List.filter_append, hA, finalWriteOps_filter_warn]
    have hlit : ("##[warning]Excluded " : String).data =
        ("##[warning]" : String).data ++ ("Excluded " : String).data := by decide
    have hs : ∀ n : Nat,
        "##[warning]" ++ ("Excluded " ++ toString n ++
          " tests because they are marked as Pending.") =
        "##[warning]Excluded " ++ toString n ++
          " tests because they are marked as Pending." := by
      intro n
      apply String.ext
      simp [data_append, hlit, List.append_assoc]
    have hW : warningOps opts
        (processEnd cwd opts envFile bytes uuids fsEnv xmlOf tests).excludedPendingCount =
        [FsOp.consoleWarn ("##[warning]Excluded " ++
          toString (processEnd cwd opts envFile bytes uuids fsEnv xmlOf tests).excludedPendingCount
          ++ " tests because they are marked as Pending.")] := by
      unfold warningOps
      rw [if_pos ⟨hw, by omega⟩, if_neg (by omega), hs]
    rw [hW]
    rfl

/-- Claim C7 witness: one excluded pending test under
`excludePending := true, warnExcludedPending := true` produces exactly the
singular-phrased warning. -/
theorem pending_warning_spec_witness :
    (processEnd "" ⟨none, JsVal.bool true, JsVal.bool true⟩ none [] (fun _ => "u")
        noFailEnv (fun _ => "")
        [⟨1, "p", "S p", true, none, none, []⟩]).ops.filter isWarnOp =
      [FsOp.consoleWarn "##[warning]Excluded 1 test because it is marked as Pending."] :=
  (pending_warning_spec "" ⟨none, JsVal.bool true, JsVal.bool true⟩ none []
    (fun _ => "u") noFailEnv (fun _ => "")
    [⟨1, "p", "S p", true, none, none, []⟩] rfl).2.1 (by decide)

/-- Claim C5: attachment-relocation failures are only logged: the produced
result entry is the same as in the environment where no filesystem call
throws, a directory-creation failure adds a log line naming the directory and
the error, a copy failure adds a log line naming source, target and error,
and at run level the produced entries and the excluded count are independent
of the failure environment, so no test's entry is omitted or changed and the
run is not aborted. -/
theorem attachment_failure_resilience_spec (cwd f u : String) (fsEnv : FsEnv)
    (t : Test) (r : ResultEntry) (opts : ReporterOptions) (envFile : Option String)
    (bytes : List Nat) (uuids : Nat → String) (xmlOf : List ResultEntry → String)
    (tests : List Test) :
    (relocateAttachments cwd f u fsEnv t r).1 =
      (relocateAttachments cwd f u noFailEnv t r).1 ∧
    (∀ e, fsEnv.mkdirFails
        (joinPath [cwd, replaceFirst f ".trx" "", "In",
          jsOrD r.relativeResultsDirectory (jsOrD r.executionId u)]) = some e →
      FsOp.stdoutWrite ("Error creating directory for attachments \"" ++
          joinPath [cwd, replaceFirst f ".trx" "", "In",
            jsOrD r.relativeResultsDirectory (jsOrD r.executionId u)] ++
          "\": " ++ e ++ "\r\n")
        ∈ (relocateAttachments cwd f u fsEnv t r).2) ∧
    (∀ a e, a ∈ t.attachments →
      fsEnv.copyFails a
        (joinPath [joinPath [cwd, replaceFirst f ".trx" "", "In",
          jsOrD r.relativeResultsDirectory (jsOrD r.executionId u)], baseName a]) = some e →
      FsOp.stdoutWrite ("Error copying attachment from \"" ++ a ++ "\" to \"" ++
          joinPath [joinPath [cwd, replaceFirst f ".trx" "", "In",
            jsOrD r.relativeResultsDirectory (jsOrD r.executionId u)], baseName a] ++
          "\": \"" ++ e ++ "\"\r\n")
        ∈ (relocateAttachments cwd f u fsEnv t r).2) ∧
    (processEnd cwd opts envFile bytes uuids fsEnv xmlOf tests).results =
      (processEnd cwd opts envFile bytes uuids noFailEnv xmlOf tests).results ∧
    (processEnd cwd opts envFile bytes uuids fsEnv xmlOf tests).excludedPendingCount =
      (processEnd cwd opts envFile bytes uuids noFailEnv xmlOf tests).excludedPendingCount := by
  refine ⟨by rw [relocate_fst, relocate_fst], ?_, ?_, ?_, ?_⟩
  · intro e he
    simp only [relocateAttachments]
    apply List.mem_append_left
    simp only [mkdirAttemptOps]
    rw [he]
    simp
  · intro a e ha he
    simp only [relocateAttachments]
    apply List.mem_append_right
    rw [List.mem_flatten]
    refine ⟨(copyAttachment fsEnv
      (joinPath [cwd, replaceFirst f ".trx" "", "In",
        jsOrD r.relativeResultsDirectory (jsOrD r.executionId u)]) a).2, ?_, ?_⟩
    · exact List.mem_map_of_mem _ (List.mem_map_of_mem _ ha)
    · simp only [copyAttachment]
      rw [he]
      simp
  · exact (processTests_env cwd (resolveFilename opts.output envFile bytes)
      opts fsEnv uuids 0 tests).1
  · exact (processTests_env cwd (resolveFilename opts.output envFile bytes)
      opts fsEnv uuids 0 tests).2

/-- Claim C5 witness: in an environment where every directory creation fails
with `EACCES` and every copy fails with `ENOENT`, the entry produced for a
test with one attachment equals the no-failure entry and both error log lines
are emitted. -/
theorem attachment_failure_resilience_spec_witness :
    (relocateAttachments "/w" "out.trx" "u0"
        ⟨fun _ => some "EACCES", fun _ _ => some "ENOENT"⟩
        ⟨1, "t", "S t", false, some "passed", none, ["/tmp/a.png"]⟩
        (testToTrx ⟨1, "t", "S t", false, some "passed", none, ["/tmp/a.png"]⟩)).1 =
      (relocateAttachments "/w" "out.trx" "u0" noFailEnv
        ⟨1, "t", "S t", false, some "passed", none, ["/tmp/a.png"]⟩
        (testToTrx ⟨1, "t", "S t", false, some "passed", none, ["/tmp/a.png"]⟩)).1 ∧
    FsOp.stdoutWrite ("Error creating directory for attachments \"" ++
        joinPath ["/w", replaceFirst "out.trx" ".trx" "", "In",
          jsOrD (testToTrx ⟨1, "t", "S t", false, some "passed", none,
            ["/tmp/a.png"]⟩).relativeResultsDirectory
          (jsOrD (testToTrx ⟨1, "t", "S t", false, some "passed", none,
            ["/tmp/a.png"]⟩).executionId "u0")] ++ "\": " ++ "EACCES" ++ "\r\n")
      ∈ (relocateAttachments "/w" "out.trx" "u0"
        ⟨fun _ => some "EACCES", fun _ _ => some "ENOENT"⟩
        ⟨1, "t", "S t", false, some "passed", none, ["/tmp/a.png"]⟩
        (testToTrx ⟨1, "t", "S t", false, some "passed", none, ["/tmp/a.png"]⟩)).2 := by
  have h := attachment_failure_resilience_spec "/w" "out.trx" "u0"
    ⟨fun _ => some "EACCES", fun _ _ => some "ENOENT"⟩
    ⟨1, "t", "S t", false, some "passed", none, ["/tmp/a.png"]⟩
    (testToTrx ⟨1, "t", "S t", false, some "passed", none, ["/tmp/a.png"]⟩)
    ⟨none, JsVal.undef, JsVal.undef⟩ none [] (fun _ => "") (fun _ => "") []
  exact ⟨h.1, h.2.1 "EACCES" rfl⟩

/-- Claim C6: the report is serialized and written once: with a resolved
output path the emitted actions end with recursively creating the path's
parent directory and writing the serialized content to the path, and that is
the only file write; with no resolved path the actions are exactly the
optional warning followed by writing the serialized content to standard
output, with no filesystem action at all. -/
theorem final_write_spec (cwd : String) (opts : ReporterOptions) (envFile : Option String)
    (bytes : List Nat) (uuids : Nat → String) (fsEnv : FsEnv)
    (xmlOf : List ResultEntry → String) (tests : List Test) :
    (∀ f, resolveFilename opts.output envFile bytes = some f →
      (∃ pre, (processEnd cwd opts envFile bytes uuids fsEnv xmlOf tests).ops =
        pre ++ [FsOp.mkdirRec (dirname f),
          FsOp.writeFile f
            (xmlOf (processEnd cwd opts envFile bytes uuids fsEnv xmlOf tests).results)]) ∧
      (processEnd cwd opts envFile bytes uuids fsEnv xmlOf tests).ops.filter isWriteFileOp =
        [FsOp.writeFile f
          (xmlOf (processEnd cwd opts envFile bytes uuids fsEnv xmlOf tests).results)]) ∧
    (resolveFilename opts.output envFile bytes = none →
      (processEnd cwd opts envFile bytes uuids fsEnv xmlOf tests).ops =
        warningOps opts
          (processEnd cwd opts envFile bytes uuids fsEnv xmlOf tests).excludedPendingCount ++
        [FsOp.stdoutWrite
          (xmlOf (processEnd cwd opts envFile bytes uuids fsEnv xmlOf tests).results)] ∧
      (processEnd cwd opts envFile bytes uuids fsEnv xmlOf tests).ops.filter isDiskOp = [] ∧
      (processEnd cwd opts envFile bytes uuids fsEnv xmlOf tests).ops.filter
          (fun op => !isWarnOp op) =
        [FsOp.stdoutWrite
          (xmlOf (processEnd cwd opts envFile bytes uuids fsEnv xmlOf tests).results)]) := by
  have hops : (processEnd cwd opts envFile bytes uuids fsEnv xmlOf tests).ops =
      (processTests cwd (resolveFilename opts.output envFile bytes) opts fsEnv uuids 0 tests).2.2 ++
      warningOps opts
        (processEnd cwd opts envFile bytes uuids fsEnv xmlOf tests).excludedPendingCount ++
      finalWriteOps (resolveFilename opts.output envFile bytes)
        (xmlOf (processEnd cwd opts envFile bytes uuids fsEnv xmlOf tests).results) := rfl
  have hW : ∀ p : FsOp → Bool, (∀ op, isWarnOp op = true → p op = false) →
      (warningOps opts
        (processEnd cwd opts envFile bytes uuids fsEnv xmlOf tests).excludedPendingCount).filter
        p = [] := fun p hp =>
    filter_eq_nil_of_not p _ (fun op hop => hp op (warningOps_all_warn opts _ op hop))
  constructor
  · intro f hf
    rw [hops, hf]
    have hA : ((processTests cwd (some f) opts fsEnv uuids 0 tests).2.2).filter
        isWriteFileOp = [] :=
      filter_eq_nil_of_not isWriteFileOp _
        (fun op hop => reloc_not_writeFile op
          (processTests_ops_reloc cwd (some f) opts fsEnv uuids 0 tests op hop))
    refine ⟨⟨_, rfl⟩, ?_⟩
    rw [List.filter_append, List.filter_append, hA, hW isWriteFileOp warn_not_writeFile]
    rfl
  · intro hf
    rw [hops, hf, processTests_ops_none cwd opts fsEnv uuids 0 tests]
    refine ⟨rfl, ?_, ?_⟩
    · rw [List.filter_append, List.filter_append, hW isDiskOp warn_not_disk]
      rfl
    · rw [List.filter_append, List.filter_append,
        hW (fun op => !isWarnOp op) (fun op hop => by simp [hop])]
      rfl

/-- Claim C6 witness: with output `o.trx` the only file write is the
serialized report to `o.trx`; and with no output at all the emitted actions
are exactly the report printed to standard output. -/
theorem final_write_spec_witness :
    (processEnd "" ⟨some "o.trx", JsVal.undef, JsVal.undef⟩ none [] (fun _ => "u")
        noFailEnv (fun _ => "X")
        [⟨1, "t", "S t", false, some "passed", none, []⟩]).ops.filter isWriteFileOp =
      [FsOp.writeFile "o.trx" "X"] ∧
    (processEnd "" ⟨none, JsVal.undef, JsVal.undef⟩ none [] (fun _ => "u")
        noFailEnv (fun _ => "X")
        [⟨1, "t", "S t", false, some "passed", none, []⟩]).ops =
      warningOps ⟨none, JsVal.undef, JsVal.undef⟩
        (processEnd "" ⟨none, JsVal.undef, JsVal.undef⟩ none [] (fun _ => "u")
          noFailEnv (fun _ => "X")
          [⟨1, "t", "S t", false, some "passed", none, []⟩]).excludedPendingCount ++
      [FsOp.stdoutWrite "X"] :=
  ⟨((final_write_spec "" ⟨some "o.trx", JsVal.undef, JsVal.undef⟩ none [] (fun _ => "u")
      noFailEnv (fun _ => "X")
      [⟨1, "t", "S t", false, some "passed", none, []⟩]).1 "o.trx" (by decide)).2,
   ((final_write_spec "" ⟨none, JsVal.undef, JsVal.undef⟩ none [] (fun _ => "u")
      noFailEnv (fun _ => "X")
      [⟨1, "t", "S t", false, some "passed", none, []⟩]).2 (by decide)).1⟩

theorem mem_addTest_self (acc : List Nat) (t : Test) : t.id ∈ addTest acc t := by
  unfold addTest
  by_cases h : acc.contains t.id
  · rw [if_pos h]
    exact List.mem_of_elem_eq_true h
  · rw [if_neg h]
    exact List.mem_append_right _ (List.mem_singleton.mpr rfl)

theorem mem_addTest_of_mem (acc : List Nat) (t : Test) (i : Nat) (h : i ∈ acc) :
    i ∈ addTest acc t := by
  unfold addTest
  split
  · exact h
  · exact List.mem_append_left _ h

theorem foldl_addTest_mono (l : List Test) (acc : List Nat) (i : Nat) (h : i ∈ acc) :
    i ∈ l.foldl
      (fun a t => if t.pending = true ∨ t.state = none then addTest a t else a) acc := by
  induction l generalizing acc with
  | nil => exact h
  | cons t rest ih =>
    simp only [List.foldl_cons]
    apply ih
    split
    · exact mem_addTest_of_mem acc t i h
    · exact h

theorem foldl_addTest_mem (l : List Test) (acc : List Nat) (t : Test)
    (ht : t ∈ l) (hc : t.pending = true ∨ t.state = none) :
    t.id ∈ l.foldl
      (fun a t => if t.pending = true ∨ t.state = none then addTest a t else a) acc := by
  induction l generalizing acc with
  | nil => exact absurd ht (List.not_mem_nil t)
  | cons t0 rest ih =>
    simp only [List.foldl_cons]
    rcases List.mem_cons.mp ht with rfl | ht0
    · apply foldl_addTest_mono
      rw [if_pos hc]
      exact mem_addTest_self acc t
    · exact ih _ ht0

/-- Claim C1 counterexample: a pending test that already carries the resolved
state `'pending'` is hit by the hook-failure pass — it gets the synthetic
error and is added to the set — but its state is NOT forced to `'failed'`
(and it is not left unchanged either), contrary to the claim. -/
theorem suiteEnd_hookFailure_cex :
    ((handleSuiteEnd ⟨0, "S", [⟨1, "t1", "S t1", true, some "pending", none, []⟩]⟩
        (some ⟨"\"before each\" hook",
          ⟨0, "S", [⟨1, "t1", "S t1", true, some "pending", none, []⟩]⟩,
          ⟨"boom", "trace"⟩⟩)
        []).1.tests.map Test.state = [some "pending"]) ∧
    ((handleSuiteEnd ⟨0, "S", [⟨1, "t1", "S t1", true, some "pending", none, []⟩]⟩
        (some ⟨"\"before each\" hook",
          ⟨0, "S", [⟨1, "t1", "S t1", true, some "pending", none, []⟩]⟩,
          ⟨"boom", "trace"⟩⟩)
        []).1.tests.map Test.err ≠ [none]) ∧
    (some "pending" ≠ (some "failed" : Option String)) := by
  refine ⟨rfl, ?_, by decide⟩
  decide

/-- Claim C1 as amended: when the pending hook-failure marker's scope is the
ended suite, the marker is cleared and every test of the scope is updated in
place: a test that is pending or has no resolved state gets the synthetic
error — message naming the hook's title and the scope's fully-qualified
title, stack copied from the hook's error — and is added to the accumulation
set, and its state is forced to `'failed'` only when it had no resolved
state (a pending test that already carries a state keeps it); tests that are
neither pending nor state-less are left unchanged; previously accumulated
ids stay accumulated. -/
theorem suiteEnd_hookFailure_spec (s : Suite) (fh : Hook) (acc : List Nat)
    (hp : fh.parent = s) :
    (handleSuiteEnd s (some fh) acc).2.1 = none ∧
    (handleSuiteEnd s (some fh) acc).1.tests = s.tests.map (hookFailureUpdate fh) ∧
    syntheticErr fh =
      ⟨"Not executed due to " ++ fh.title ++ " on \"" ++ s.fullTitle ++ "\"",
        fh.err.stack⟩ ∧
    (∀ t ∈ s.tests, (t.pending = true ∨ t.state = none) →
      hookFailureUpdate fh t =
        { t with
            err := some (syntheticErr fh)
            state := if t.state = none then some "failed" else t.state } ∧
      t.id ∈ (handleSuiteEnd s (some fh) acc).2.2) ∧
    (∀ t ∈ s.tests, ¬(t.pending = true ∨ t.state = none) →
      hookFailureUpdate fh t = t) ∧
    (∀ i ∈ acc, i ∈ (handleSuiteEnd s (some fh) acc).2.2) := by
  have h22 : (handleSuiteEnd s (some fh) acc).2.2 =
      s.tests.foldl
        (fun a t => if t.pending = true ∨ t.state = none then addTest a t else a) acc := by
    simp [handleSuiteEnd, hp]
  refine ⟨by simp [handleSuiteEnd, hp], by simp [handleSuiteEnd, hp], ?_, ?_, ?_, ?_⟩
  · unfold syntheticErr
    rw [hp]
  · intro t ht hc
    constructor
    · unfold hookFailureUpdate
      rw [if_pos hc]
    · rw [h22]
      exact foldl_addTest_mem s.tests acc t ht hc
  · intro t ht hc
    unfold hookFailureUpdate
    rw [if_neg hc]
  · intro i hi
    rw [h22]
    exact foldl_addTest_mono s.tests acc i hi

/-- Claim C1 witness: a suite with a state-less test hit by a failed
`"before each"` hook: the marker is cleared, the test's state is forced to
`'failed'`, and its id enters the accumulation set. -/
theorem suiteEnd_hookFailure_spec_witness :
    (handleSuiteEnd ⟨0, "S", [⟨1, "t1", "S t1", false, none, none, []⟩]⟩
      (some ⟨"\"before each\" hook", ⟨0, "S", [⟨1, "t1", "S t1", false, none, none, []⟩]⟩,
        ⟨"boom", "trace"⟩⟩) []).2.1 = none ∧
    hookFailureUpdate
        ⟨"\"before each\" hook", ⟨0, "S", [⟨1, "t1", "S t1", false, none, none, []⟩]⟩,
          ⟨"boom", "trace"⟩⟩
        ⟨1, "t1", "S t1", false, none, none, []⟩ =
      { (⟨1, "t1", "S t1", false, none, none, []⟩ : Test) with
          err := some (syntheticErr
            ⟨"\"before each\" hook", ⟨0, "S", [⟨1, "t1", "S t1", false, none, none, []⟩]⟩,
              ⟨"boom", "trace"⟩⟩)
          state := if (none : Option String) = none then some "failed" else none } ∧
    (1 : Nat) ∈ (handleSuiteEnd ⟨0, "S", [⟨1, "t1", "S t1", false, none, none, []⟩]⟩
      (some ⟨"\"before each\" hook", ⟨0, "S", [⟨1, "t1", "S t1", false, none, none, []⟩]⟩,
        ⟨"boom", "trace"⟩⟩) []).2.2 := by
  have h := suiteEnd_hookFailure_spec
    ⟨0, "S", [⟨1, "t1", "S t1", false, none, none, []⟩]⟩
    ⟨"\"before each\" hook", ⟨0, "S", [⟨1, "t1", "S t1", false, none, none, []⟩]⟩,
      ⟨"boom", "trace"⟩⟩ [] rfl
  have hm := h.2.2.2.1 ⟨1, "t1", "S t1", false, none, none, []⟩ (by decide) (Or.inr rfl)
  exact ⟨h.1, hm.1, hm.2⟩

/-- Claim C2 counterexample: with output path `out.xml` — whose extension is
`.xml` and which contains no `.trx` — the attachment directory the code
creates is `out.xml/In/u0`: the code removes the first occurrence of the
literal substring `.trx` (a no-op here) rather than the path's extension, so
the claimed `<output-path-without-extension>/In/<dir>` = `out/In/u0` is
never created. -/
theorem attachments_relocation_cex :
    FsOp.mkdirRec "out.xml/In/u0" ∈
      (processEnd "" ⟨some "out.xml", JsVal.undef, JsVal.undef⟩ none [] (fun _ => "u0")
        noFailEnv (fun _ => "")
        [⟨1, "t", "S t", false, some "passed", none, ["/tmp/a.png"]⟩]).ops ∧
    FsOp.mkdirRec "out/In/u0" ∉
      (processEnd "" ⟨some "out.xml", JsVal.undef, JsVal.undef⟩ none [] (fun _ => "u0")
        noFailEnv (fun _ => "")
        [⟨1, "t", "S t", false, some "passed", none, ["/tmp/a.png"]⟩]).ops := by
  decide

/-- Claim C2 as amended: for every test with at least one attachment, when an
output filename is resolved and the test is not excluded, the produced entry
gets the fresh execution identifier, a relative results directory defaulting
to it, and one file reference per attachment under its base name; the emitted
actions create (recursively) the attachment directory
`path.join(cwd, <output path with the first occurrence of the substring
'.trx' removed>, "In", <relative results directory>)` and copy each
attachment into it under its base name. -/
theorem attachments_relocation_spec (cwd f u : String) (opts : ReporterOptions)
    (fsEnv : FsEnv) (t : Test)
    (hskip : ¬(t.pending = true ∧ opts.excludePending = JsVal.bool true))
    (hatt : t.attachments.isEmpty = false) :
    ∃ r ops, processTest cwd (some f) opts fsEnv u t = (some r, ops) ∧
      r.test = t ∧
      r.executionId = some u ∧
      r.relativeResultsDirectory = some u ∧
      r.resultFiles = t.attachments.map baseName ∧
      FsOp.mkdirRec (joinPath [cwd, replaceFirst f ".trx" "", "In", u]) ∈ ops ∧
      ∀ a ∈ t.attachments,
        FsOp.copyFile a
          (joinPath [joinPath [cwd, replaceFirst f ".trx" "", "In", u], baseName a])
          ∈ ops := by
  have hfst : (relocateAttachments cwd f u fsEnv t (testToTrx t)).1 =
      { test := t, executionId := some u, relativeResultsDirectory := some u,
        resultFiles := t.attachments.map baseName } := by
    rw [relocate_fst]
    rfl
  have hshape : processTest cwd (some f) opts fsEnv u t =
      (some (relocateAttachments cwd f u fsEnv t (testToTrx t)).1,
       (relocateAttachments cwd f u fsEnv t (testToTrx t)).2) := by
    unfold processTest
    rw [if_neg hskip]
    dsimp only
    rw [if_neg (by simp [hatt])]
  refine ⟨(relocateAttachments cwd f u fsEnv t (testToTrx t)).1,
    (relocateAttachments cwd f u fsEnv t (testToTrx t)).2,
    hshape, by rw [hfst], by rw [hfst], by rw [hfst], by rw [hfst], ?_, ?_⟩
  · simp only [relocateAttachments, testToTrx, jsOrD]
    apply List.mem_append_left
    exact List.mem_append_left _ (List.mem_cons_of_mem _ (List.mem_cons_self _ _))
  · intro a ha
    simp only [relocateAttachments, testToTrx, jsOrD]
    apply List.mem_append_right
    rw [List.mem_flatten]
    refine ⟨(copyAttachment fsEnv (joinPath [cwd, replaceFirst f ".trx" "", "In", u]) a).2,
      List.mem_map_of_mem _ (List.mem_map_of_mem _ ha), ?_⟩
    simp only [copyAttachment]
    exact List.mem_append_left _ (List.mem_cons_of_mem _ (List.mem_cons_self _ _))

/-- Claim C2 witness: a test carrying one attachment, with output `out.trx`,
gets its attachment directory created at
`path.join("/w", "out", "In", "u0")`. -/
theorem attachments_relocation_spec_witness :
    FsOp.mkdirRec (joinPath ["/w", replaceFirst "out.trx" ".trx" "", "In", "u0"]) ∈
      (processTest "/w" (some "out.trx") ⟨some "out.trx", JsVal.undef, JsVal.undef⟩
        noFailEnv "u0" ⟨1, "t", "S t", false, some "passed", none, ["/tmp/a.png"]⟩).2 := by
  obtain ⟨r, ops, heq, -, -, -, -, hmk, -⟩ := attachments_relocation_spec "/w" "out.trx" "u0"
    ⟨some "out.trx", JsVal.undef, JsVal.undef⟩ noFailEnv
    ⟨1, "t", "S t", false, some "passed", none, ["/tmp/a.png"]⟩ (by decide) (by decide)
  rw [heq]
  exact hmk

end MochaTrx
